import Mathlib

/-!
Verification of the error-handling builder widget.

The development embeds the two variants of the widget's core logic:

* the per-line transform engine (`applyThrow`, `applyCatch`, `applyOptionalOf`)
  together with the lenient progression engine (`V2State`, `applyActionAt`,
  `nextV2`, `resetStageV2`, `resetAllV2`), and
* the strict-scoring progression engine (`AppState`, `applyAction`, `goNext`,
  `resetA`) with its per-stage applied-action records.

Code lines are plain strings; the textual pattern tests the source performs
with regular expressions (`/return\s+null;?/`, `/return\s+(.+);/`, `/^\s*/`,
`/Optional\./`) are embedded as explicit matching functions on `List Char`
that reproduce leftmost matching with greedy quantifiers.
-/

/-- Whitespace class of the source's regular expressions (`\s`). -/
def jsWs (c : Char) : Bool :=
  c = ' ' || c = '\t' || c = '\n' || c = '\x0b' || c = '\x0c' || c = '\r' ||
  c = ' ' || c = ' ' || (0x2000 ≤ c.toNat && c.toNat ≤ 0x200A) ||
  c = ' ' || c = ' ' || c = ' ' || c = ' ' || c = '　' ||
  c = '﻿'

/-- Line-terminator class: the characters the `.` pattern does not match. -/
def lineTerm (c : Char) : Bool :=
  c = '\n' || c = '\r' || c = ' ' || c = ' '

/-- `jsStartsWithL p s` holds when the character list `p` is a prefix of `s`. -/
def jsStartsWithL : List Char → List Char → Bool
  | [], _ => true
  | _ :: _, [] => false
  | p :: ps, c :: cs => if p = c then jsStartsWithL ps cs else false

/-- String-level prefix test (`String.prototype.startsWith`). -/
def jsStartsWith (s p : String) : Bool :=
  jsStartsWithL p.data s.data

/-- Substring occurrence test: `containsSub pat s` holds when `pat` occurs
contiguously inside `s`. -/
def containsSub (pat : List Char) : List Char → Bool
  | [] => jsStartsWithL pat []
  | c :: cs => jsStartsWithL pat (c :: cs) || containsSub pat cs

/-- Drop a literal prefix, returning the remainder when the prefix is present. -/
def dropPre : List Char → List Char → Option (List Char)
  | [], s => some s
  | _ :: _, [] => none
  | p :: ps, c :: cs => if p = c then dropPre ps cs else none

/-- Leading-whitespace run of a line (the `/^\s*/` match). -/
def leadWs (s : List Char) : List Char := s.takeWhile jsWs

/-- Whitespace trimming from both ends (`String.prototype.trim`). -/
def trimJs (s : List Char) : List Char :=
  ((s.dropWhile jsWs).reverse.dropWhile jsWs).reverse

/-- First pass of `esc`: replace every `&` with `&amp;`. -/
def escAmp : List Char → List Char
  | [] => []
  | c :: cs => (if c = '&' then ("&amp;").data else [c]) ++ escAmp cs

/-- Second pass of `esc`: replace every `<` with `&lt;`. -/
def escLt : List Char → List Char
  | [] => []
  | c :: cs => (if c = '<' then ("&lt;").data else [c]) ++ escLt cs

/-- The source's `esc` helper: sequential global replacement of `&` then `<`. -/
def escJs (s : List Char) : List Char := escLt (escAmp s)

/-- Attempt to match `return\s+null;?` at the head of `s`; on success return
the matched characters and the remainder.  The whitespace run is maximal (the
quantifier is greedy and `null` cannot begin with a whitespace character), and
the trailing `;` is consumed when present. -/
def tryRN (s : List Char) : Option (List Char × List Char) :=
  match dropPre ("return").data s with
  | none => none
  | some r1 =>
    let w := r1.takeWhile jsWs
    if w.isEmpty then none
    else
      match dropPre ("null").data (r1.dropWhile jsWs) with
      | none => none
      | some r3 =>
        match r3 with
        | ';' :: r4 => some (("return").data ++ w ++ ("null").data ++ [';'], r4)
        | _ => some (("return").data ++ w ++ ("null").data, r3)

/-- Leftmost match of `return\s+null;?`: on success, `some (pre, m, post)`
with the scanned string equal to `pre ++ m ++ post` and no match starting
inside `pre`. -/
def findRN : List Char → Option (List Char × List Char × List Char)
  | [] => none
  | c :: cs =>
    match tryRN (c :: cs) with
    | some (m, rest) => some ([], m, rest)
    | none =>
      match findRN cs with
      | some (p, m, r) => some (c :: p, m, r)
      | none => none

/-- `RegExp.prototype.test` for `/return\s+null;?/`. -/
def matchesRN (s : String) : Bool := (findRN s.data).isSome

/-- Index of the last `;` in a character list, when present. -/
def lastSemi : List Char → Option Nat
  | [] => none
  | c :: cs =>
    match lastSemi cs with
    | some n => some (n + 1)
    | none => if c = ';' then some 0 else none

/-- Attempt to match `return\s+(.+);` at the head of `s` with greedy,
backtracking quantifiers; on success return the capture group and the
remainder after the match.  The greedy `.+;` selects the last `;` inside the
maximal line-terminator-free prefix, requiring at least one preceding
character; if the only available `;` is immediately after the whitespace run,
the greedy `\s+` backtracks by one character, donating its last (dot-matchable)
whitespace character to the capture group. -/
def tryRE (s : List Char) : Option (List Char × List Char) :=
  match dropPre ("return").data s with
  | none => none
  | some r1 =>
    let w := r1.takeWhile jsWs
    let rem := r1.dropWhile jsWs
    if w.isEmpty then none
    else
      match lastSemi (rem.takeWhile (fun c => !lineTerm c)) with
      | some m =>
        if 1 ≤ m then some (rem.take m, rem.drop (m + 1))
        else
          match rem with
          | ';' :: rest2 =>
            if 2 ≤ w.length ∧ lineTerm (w.getLastD ' ') = false then
              some ([w.getLastD ' '], rest2)
            else none
          | _ => none
      | none => none

/-- Leftmost match of `return\s+(.+);`: on success, `some (pre, e, rest)`
where `e` is the capture group and the replacement output of
`line.replace(/return\s+(.+);/, 'return Optional.of($1);')` is
`pre ++ "return Optional.of(" ++ e ++ ");" ++ rest`. -/
def findRE : List Char → Option (List Char × List Char × List Char)
  | [] => none
  | c :: cs =>
    match tryRE (c :: cs) with
    | some (e, rest) => some ([], e, rest)
    | none =>
      match findRE cs with
      | some (p, e, r) => some (c :: p, e, r)
      | none => none

/-- `RegExp.prototype.test` for `/return\s+.+;/`. -/
def matchesRE (s : String) : Bool := (findRE s.data).isSome

/-- `RegExp.prototype.test` for `/Optional\./`. -/
def hasOptionalDot (s : String) : Bool := containsSub ("Optional.").data s.data

/-- `Array.prototype.splice(n, 0, x)`: insert `x` at position `n`, clamping
`n` to the length of the list. -/
def spliceInsert (l : List String) (n : Nat) (x : String) : List String :=
  l.take n ++ [x] ++ l.drop n

/-- Leading indentation of a line, as a string. -/
def jsIndent (line : String) : String := String.mk (leadWs line.data)

/-- Replacement text substituted for a matched `return null;` by the Throw
transform. -/
def throwNullRepl : List Char :=
  ("throw new <span contenteditable=\"true\" class=\"ce\">UpstreamUnavailableException</span>();").data

/-- The fresh throw line inserted by the Throw transform after a line that
does not match `return null`: one indentation level deeper than the target. -/
def throwInsLine (line : String) : String :=
  jsIndent line ++ "    " ++
    "throw new <span contenteditable=\"true\" class=\"ce\">CustomDomainException</span>();"

/-- `applyThrow` from the transform engine: replace a matched `return null;`
in place, or insert a new throw line right after the target. -/
def applyThrow (lines : List String) (i : Nat) : List String :=
  let line := lines.getD i ""
  match findRN line.data with
  | some (pre, _, post) => lines.set i (String.mk (pre ++ throwNullRepl ++ post))
  | none => spliceInsert lines (i + 1) (throwInsLine line)

/-- The five-line try/catch block the Catch transform substitutes for the
targeted line. -/
def catchWrap (orig : String) : List String :=
  let indent := jsIndent orig
  let innerIndent := indent ++ "    "
  [indent ++ "try \x7b",
   innerIndent ++ String.mk (escJs (trimJs orig.data)),
   indent ++ "\x7d catch (<span contenteditable=\"true\" class=\"ce\">Exception</span> e) \x7b",
   innerIndent ++ "// <span contenteditable=\"true\" class=\"ce\">decide: skip/retry/DLQ/translate</span>",
   indent ++ "\x7d"]

/-- `applyCatch` from the transform engine: splice the five-line block in
place of the single targeted line. -/
def applyCatch (lines : List String) (i : Nat) : List String :=
  lines.take i ++ catchWrap (lines.getD i "") ++ lines.drop (i + 1)

/-- The sample line inserted by the Optional transform when the target is not
rewritten in place. -/
def optSample (line : String) : String :=
  jsIndent line ++ "    " ++
    "return Optional.of(<span contenteditable=\"true\" class=\"ce\">value</span>);"

/-- `applyOptionalOf` from the transform engine: rewrite a non-Optional
`return <expr>;` in place, otherwise insert a sample Optional return after the
target. -/
def applyOptionalOf (lines : List String) (i : Nat) : List String :=
  let line := lines.getD i ""
  match findRE line.data with
  | some (pre, e, rest) =>
    if hasOptionalDot line then spliceInsert lines (i + 1) (optSample line)
    else lines.set i
      (String.mk (pre ++ ("return Optional.of(").data ++ e ++ (");").data ++ rest))
  | none => spliceInsert lines (i + 1) (optSample line)

/-- Lenient advancement policy: at least one applied action. -/
def canAdvance (appliedCount : Nat) : Bool := decide (appliedCount > 0)

/-! ## Stage registry -/

/-- Stage records of the transform-engine variant. -/
structure V2Stage where
  key : String
  title : String
  goal : String
  snippet : List String
  recommended : List String
  hint : String
deriving DecidableEq

/-- Stage records of the strict-scoring variant. -/
structure AppStage where
  key : String
  title : String
  goal : String
  snippet : List String
  expectedKeys : List String
  hint : String
deriving DecidableEq

def snippet1 : List String :=
  ["for (Record record : stream) \x7b",
   "    processMessage(record); // may call networkCall()",
   "\x7d"]

def snippet2 : List String :=
  ["public Optional<User> findByEmail(String email) \x7b",
   "    // query DB...",
   "    return Optional.empty(); // sometimes; distinguish from DB failure",
   "\x7d"]

def snippet3 : List String :=
  ["@GetMapping(\"/orders/\x7bid\x7d\")",
   "public ResponseEntity<?> get(@PathVariable String id) \x7b",
   "    return ResponseEntity.ok(service.fetch(id));",
   "\x7d"]

def snippet4 : List String :=
  ["for (String line : lines) \x7b",
   "    Transaction t = parse(line);",
   "    writer.write(t);",
   "\x7d"]

def snippet5 : List String :=
  ["Response r = http.get(\"/partner\");",
   "if (r.status() == 200) return r.body();",
   "return null; // currently hiding errors",
   ""]

def hint1 : String :=
  "Catch locally to decide skip/retry; throw (translated) so the boundary can act (DLQ/retry)."
def hint2 : String :=
  "Use Optional for normal \x27not found\x27; throw on DB/driver errors to signal failure."
def hint3 : String :=
  "Let exceptions bubble; catch at @ControllerAdvice and map to 404/409/500."
def hint4 : String :=
  "Use a skip policy / per-record catch; only throw on critical corruption."
def hint5 : String :=
  "Don’t return null on outage; retry then throw UpstreamUnavailableException."

def title1 : String := "Stage 1 — Streaming loop"
def title2 : String := "Stage 2 — Repository lookup"
def title3 : String := "Stage 3 — HTTP boundary"
def title4 : String := "Stage 4 — Batch job (1M rows)"
def title5 : String := "Stage 5 — Upstream 503"

def goal1 : String :=
  "Process many messages; transient upstream failure should not crash the whole consumer."
def goal2 : String :=
  "Find user by email. Absence is normal. DB failures are exceptional."
def goal3 : String :=
  "Translate domain exceptions to proper HTTP status codes."
def goal4 : String :=
  "Skip bad records (ParseException) and continue; fail fast on corruption."
def goal5 : String :=
  "Treat 503 as data; retry/backoff; signal failure upward if exhausted."

/-- The `STAGES` array of the transform-engine variant. -/
def STAGES_v2 : List V2Stage :=
  [⟨"kafka-loop", title1, goal1, snippet1, ["catch", "throw"], hint1⟩,
   ⟨"repo-optional", title2, goal2, snippet2, ["opt", "throw"], hint2⟩,
   ⟨"controller-boundary", title3, goal3, snippet3, ["catch", "throw"], hint3⟩,
   ⟨"batch-skip", title4, goal4, snippet4, ["catch"], hint4⟩,
   ⟨"upstream-503", title5, goal5, snippet5, ["catch", "throw"], hint5⟩]

/-- The `STAGES` array of the strict-scoring variant. -/
def STAGES_app : List AppStage :=
  [⟨"kafka-loop", title1, goal1, snippet1, ["catch", "throw"], hint1⟩,
   ⟨"repo-optional", title2, goal2, snippet2, ["opt", "throw"], hint2⟩,
   ⟨"controller-boundary", title3, goal3, snippet3, ["catch", "throw"], hint3⟩,
   ⟨"batch-skip", title4, goal4, snippet4, ["catch"], hint4⟩,
   ⟨"upstream-503", title5, goal5, snippet5, ["catch", "throw"], hint5⟩]

/-! ## Lenient progression engine (transform variant) -/

/-- Initial per-key working line map: each stage key maps to a copy of its
snippet template (`Object.fromEntries(STAGES.map((s) => [s.key, [...s.snippet]]))`). -/
def templateMap : String → List String := fun k =>
  ((STAGES_v2.find? (fun s => decide (s.key = k))).map V2Stage.snippet).getD []

/-- Mutable session state of the transform variant. -/
structure V2State where
  stageIdx : Nat
  linesByStage : String → List String
  appliedCounts : String → Nat
  log : List String

/-- Initial session state of the transform variant. -/
def initV2 : V2State := ⟨0, templateMap, fun _ => 0, []⟩

/-- The active stage (`STAGES[stageIdx]`). -/
def v2StageOf (s : V2State) : V2Stage :=
  STAGES_v2.getD s.stageIdx ⟨"", "", "", [], [], ""⟩

/-- `applyActionAt`: dispatch an action identifier onto a target line of the
active stage's working copy, bump that stage's applied counter, and log. -/
def applyActionAt (s : V2State) (actionId : String) (idx : Nat) : V2State :=
  let st := v2StageOf s
  let working := s.linesByStage st.key
  let working2 :=
    if actionId = "throw" then applyThrow working idx
    else if actionId = "catch" then applyCatch working idx
    else if actionId = "opt" then applyOptionalOf working idx
    else working
  { stageIdx := s.stageIdx,
    linesByStage := fun k => if k = st.key then working2 else s.linesByStage k,
    appliedCounts := fun k => if k = st.key then s.appliedCounts st.key + 1 else s.appliedCounts k,
    log := s.log ++
      ["Applied " ++ actionId ++ " to line " ++ toString (idx + 1) ++ " in " ++ st.title] }

/-- Completion message logged by `next` on the final stage. -/
def doneMsgV2 : String :=
  "🎉 Reached the end. Open the \x27Best Practice Outcome\x27 in the README or compare with your code changes."

/-- Hint log entry format shared by both variants. -/
def hintMsgV2 (st : V2Stage) : String := "Hint for " ++ st.title ++ ": " ++ st.hint

/-- `next` of the transform variant: guarded advancement. -/
def nextV2 (s : V2State) : V2State :=
  let st := v2StageOf s
  if canAdvance (s.appliedCounts st.key) = true then
    if s.stageIdx < STAGES_v2.length - 1 then { s with stageIdx := s.stageIdx + 1 }
    else { s with log := s.log ++ [doneMsgV2] }
  else { s with log := s.log ++ [hintMsgV2 st] }

/-- `resetStage`: restore the active stage's working copy and counter. -/
def resetStageV2 (s : V2State) : V2State :=
  let st := v2StageOf s
  { s with
    linesByStage := fun k => if k = st.key then st.snippet else s.linesByStage k,
    appliedCounts := fun k => if k = st.key then 0 else s.appliedCounts k,
    log := s.log ++ ["Reset " ++ st.title] }

/-- `resetAll`: rebuild the whole session state from the templates. -/
def resetAllV2 (_ : V2State) : V2State := ⟨0, templateMap, fun _ => 0, []⟩

/-- UI events of the transform variant. -/
inductive VEvent
  | act (a : String) (i : Nat)
  | nxt
  | rstStage
  | rstAll

/-- One event step of the transform variant. -/
def vstep (s : V2State) : VEvent → V2State
  | .act a i => applyActionAt s a i
  | .nxt => nextV2 s
  | .rstStage => resetStageV2 s
  | .rstAll => resetAllV2 s

/-- Reachable session states of the transform variant. -/
inductive VReach : V2State → Prop
  | init : VReach initV2
  | step {s} (e : VEvent) : VReach s → VReach (vstep s e)

/-! ## Strict progression engine -/

/-- The closed enumeration of drag actions. -/
inductive ActionId
  | athrow
  | acatch
  | aopt
deriving DecidableEq

/-- The `id` string of an action. -/
def ActionId.str : ActionId → String
  | .athrow => "throw"
  | .acatch => "catch"
  | .aopt => "opt"

/-- The applied-record entry stored for a drop: a throw with a non-empty
custom exception name is stored as `throw:<name>`. -/
def chosen (a : ActionId) (custom : String) : String :=
  if a = ActionId.athrow ∧ custom ≠ "" then "throw:" ++ custom else a.str

/-- The `has` test of `scoreStage`: some stored entry equals the key or
starts with `key:`. -/
def hasEntry (used : List String) (k : String) : Bool :=
  used.any (fun u => (decide (u = k)) || jsStartsWith u (k ++ ":"))

/-- `scoreStage(...).ok`: every expected key has been applied at least once. -/
def scoreOk (st : AppStage) (used : List String) : Bool :=
  st.expectedKeys.all (fun k => hasEntry used k)

/-- Mutable session state of the strict variant. -/
structure AppState where
  stageIdx : Nat
  applied : String → List String
  log : List String
  customException : String
  showBest : Bool

/-- Initial session state of the strict variant. -/
def initApp : AppState := ⟨0, fun _ => [], [], "UpstreamUnavailableException", false⟩

/-- The active stage (`STAGES[stageIdx]`). -/
def appStageOf (s : AppState) : AppStage :=
  STAGES_app.getD s.stageIdx ⟨"", "", "", [], [], ""⟩

/-- `applyAction`: record a dropped action for the active stage and log it. -/
def applyAction (s : AppState) (a : ActionId) : AppState :=
  let st := appStageOf s
  let c := chosen a s.customException
  { s with
    applied := fun k => if k = st.key then s.applied st.key ++ [c] else s.applied k,
    log := s.log ++
      ["Applied " ++
        (if a = ActionId.athrow then "Throw(" ++ s.customException ++ ")" else a.str) ++
        " to " ++ st.title] }

/-- Hint log entry of the strict variant's `goNext`. -/
def hintMsgApp (st : AppStage) : String := "Hint for " ++ st.title ++ ": " ++ st.hint

/-- `goNext`: advancement guarded by the strict score. -/
def goNext (s : AppState) : AppState :=
  let st := appStageOf s
  if scoreOk st (s.applied st.key) = true then
    if s.stageIdx < STAGES_app.length - 1 then { s with stageIdx := s.stageIdx + 1 }
    else { s with showBest := true }
  else { s with log := s.log ++ [hintMsgApp st] }

/-- `reset`: restart from stage 0 with empty records, log, and reveal flag. -/
def resetA (s : AppState) : AppState :=
  { stageIdx := 0, applied := fun _ => [], log := [],
    customException := s.customException, showBest := false }

/-- UI events of the strict variant. -/
inductive AEvent
  | act (a : ActionId)
  | nxt
  | rst
  | hintB
  | setName (c : String)

/-- One event step of the strict variant. -/
def astep (s : AppState) : AEvent → AppState
  | .act a => applyAction s a
  | .nxt => goNext s
  | .rst => resetA s
  | .hintB => { s with log := s.log ++ ["Hint: " ++ (appStageOf s).hint] }
  | .setName c => { s with customException := c }

/-- Reachable session states of the strict variant. -/
inductive AReach : AppState → Prop
  | init : AReach initApp
  | step {s} (e : AEvent) : AReach s → AReach (astep s e)

/-! ## List access helpers -/

theorem getD_append_left {α} (l₁ l₂ : List α) (n : Nat) (d : α) (h : n < l₁.length) :
    (l₁ ++ l₂).getD n d = l₁.getD n d := by
  induction l₁ generalizing n with
  | nil => simp at h
  | cons a t ih =>
    cases n with
    | zero => simp
    | succ m =>
      simp only [List.cons_append, List.getD_cons_succ]
      exact ih m (by simpa using Nat.lt_of_succ_lt_succ h)

theorem getD_append_plus {α} (l₁ l₂ : List α) (n : Nat) (d : α) :
    (l₁ ++ l₂).getD (l₁.length + n) d = l₂.getD n d := by
  induction l₁ with
  | nil => simp
  | cons a t ih =>
    simpa [List.cons_append, Nat.succ_add, List.getD_cons_succ] using ih

theorem getD_set_self {α} (l : List α) (i : Nat) (x d : α) (h : i < l.length) :
    (l.set i x).getD i d = x := by
  induction l generalizing i with
  | nil => simp at h
  | cons a t ih =>
    cases i with
    | zero => simp
    | succ m =>
      simp only [List.set_cons_succ, List.getD_cons_succ]
      exact ih m (by simpa using Nat.lt_of_succ_lt_succ h)

theorem getD_set_ne {α} (l : List α) (i j : Nat) (x d : α) (hij : j ≠ i) :
    (l.set i x).getD j d = l.getD j d := by
  induction l generalizing i j with
  | nil => simp
  | cons a t ih =>
    cases i with
    | zero =>
      cases j with
      | zero => exact absurd rfl hij
      | succ m => simp
    | succ m =>
      cases j with
      | zero => simp
      | succ n =>
        simp only [List.set_cons_succ, List.getD_cons_succ]
        exact ih m n (fun hc => hij (by simp [hc]))

theorem spliceInsert_length (l : List String) (n : Nat) (x : String) (h : n ≤ l.length) :
    (spliceInsert l n x).length = l.length + 1 := by
  simp [spliceInsert]
  omega

theorem spliceInsert_getD_self (l : List String) (n : Nat) (x d : String) (h : n ≤ l.length) :
    (spliceInsert l n x).getD n d = x := by
  have hlen : (l.take n).length = n := by simp [h]
  have := getD_append_plus (l.take n) ([x] ++ l.drop n) 0 d
  simpa [spliceInsert, hlen] using this

/-! ## Claims about reset operations -/

/-- C7: `resetAll()` from any state returns every enumerated piece of mutable
session state (stage index, all working line sequences, all applied-action
records, feedback log, reveal flag) to its initial value, in both engine
variants. -/
theorem resetAll_restores_initial (s : V2State) (s2 : AppState) :
    resetAllV2 s = initV2 ∧
    (resetA s2).stageIdx = initApp.stageIdx ∧
    (resetA s2).applied = initApp.applied ∧
    (resetA s2).log = initApp.log ∧
    (resetA s2).showBest = initApp.showBest :=
  ⟨rfl, rfl, rfl, rfl, rfl⟩

/-- C8: `resetStage` on the active stage restores its working line sequence
to the pristine snippet template (the same sequence the initial state holds
for that key), zeroes its applied-action counter, appends exactly one log
entry, and leaves the stage index alone. -/
theorem resetStage_restores_template (s : V2State) (h : s.stageIdx < STAGES_v2.length) :
    (resetStageV2 s).linesByStage (v2StageOf s).key = (v2StageOf s).snippet ∧
    (resetStageV2 s).linesByStage (v2StageOf s).key = initV2.linesByStage (v2StageOf s).key ∧
    (resetStageV2 s).appliedCounts (v2StageOf s).key = 0 ∧
    (resetStageV2 s).log = s.log ++ ["Reset " ++ (v2StageOf s).title] ∧
    (resetStageV2 s).stageIdx = s.stageIdx := by
  refine ⟨by simp [resetStageV2], ?_, by simp [resetStageV2], rfl, rfl⟩
  have h5 : s.stageIdx = 0 ∨ s.stageIdx = 1 ∨ s.stageIdx = 2 ∨ s.stageIdx = 3 ∨
      s.stageIdx = 4 := by
    have hl : STAGES_v2.length = 5 := rfl
    omega
  rcases h5 with h0 | h0 | h0 | h0 | h0 <;>
    simp [resetStageV2, v2StageOf, initV2, templateMap, STAGES_v2, h0]

/-- Witness for C8 at the initial state. -/
theorem resetStage_restores_template_witness :
    (resetStageV2 initV2).linesByStage (v2StageOf initV2).key = (v2StageOf initV2).snippet ∧
    (resetStageV2 initV2).linesByStage (v2StageOf initV2).key =
      initV2.linesByStage (v2StageOf initV2).key ∧
    (resetStageV2 initV2).appliedCounts (v2StageOf initV2).key = 0 ∧
    (resetStageV2 initV2).log = initV2.log ++ ["Reset " ++ (v2StageOf initV2).title] ∧
    (resetStageV2 initV2).stageIdx = initV2.stageIdx :=
  resetStage_restores_template initV2 (by decide)

/-! ## Frame and unknown-action claims -/

/-- C9: applying any action at any line index changes only the active stage's
working line sequence and applied-action counter: every other stage key keeps
its lines and counter, and the stage index is unchanged. -/
theorem applyActionAt_frame (s : V2State) (_hidx : s.stageIdx < STAGES_v2.length)
    (a : String) (idx : Nat) (k : String) (hk : k ≠ (v2StageOf s).key) :
    (applyActionAt s a idx).linesByStage k = s.linesByStage k ∧
    (applyActionAt s a idx).appliedCounts k = s.appliedCounts k ∧
    (applyActionAt s a idx).stageIdx = s.stageIdx :=
  ⟨by simp [applyActionAt, hk], by simp [applyActionAt, hk], rfl⟩

/-- Witness for C9: an action on stage 1 leaves stage 2's state alone. -/
theorem applyActionAt_frame_witness :
    (applyActionAt initV2 "catch" 1).linesByStage "repo-optional" =
      initV2.linesByStage "repo-optional" ∧
    (applyActionAt initV2 "catch" 1).appliedCounts "repo-optional" =
      initV2.appliedCounts "repo-optional" ∧
    (applyActionAt initV2 "catch" 1).stageIdx = initV2.stageIdx :=
  applyActionAt_frame initV2 (by decide) "catch" 1 "repo-optional" (by decide)

/-- C10: an action identifier outside the closed enumeration leaves the
active stage's working lines unchanged, still increments its applied counter
and appends a log entry, and by itself makes `canAdvance` true. -/
theorem applyActionAt_unknown (s : V2State) (_hidx : s.stageIdx < STAGES_v2.length)
    (a : String) (ha : a ∉ (["throw", "catch", "opt"] : List String)) (idx : Nat) :
    (applyActionAt s a idx).linesByStage (v2StageOf s).key =
      s.linesByStage (v2StageOf s).key ∧
    (applyActionAt s a idx).appliedCounts (v2StageOf s).key =
      s.appliedCounts (v2StageOf s).key + 1 ∧
    (applyActionAt s a idx).log = s.log ++
      ["Applied " ++ a ++ " to line " ++ toString (idx + 1) ++ " in " ++ (v2StageOf s).title] ∧
    canAdvance ((applyActionAt s a idx).appliedCounts (v2StageOf s).key) = true := by
  simp only [List.mem_cons, List.not_mem_nil, or_false, not_or] at ha
  obtain ⟨ha1, ha2, ha3⟩ := ha
  refine ⟨by simp [applyActionAt, ha1, ha2, ha3], by simp [applyActionAt], rfl, ?_⟩
  simp [applyActionAt, canAdvance]

/-- Witness for C10 with the unknown identifier `"retry"`. -/
theorem applyActionAt_unknown_witness :
    (applyActionAt initV2 "retry" 0).linesByStage (v2StageOf initV2).key =
      initV2.linesByStage (v2StageOf initV2).key ∧
    (applyActionAt initV2 "retry" 0).appliedCounts (v2StageOf initV2).key =
      initV2.appliedCounts (v2StageOf initV2).key + 1 ∧
    (applyActionAt initV2 "retry" 0).log = initV2.log ++
      ["Applied " ++ "retry" ++ " to line " ++ toString (0 + 1) ++ " in " ++
        (v2StageOf initV2).title] ∧
    canAdvance ((applyActionAt initV2 "retry" 0).appliedCounts (v2StageOf initV2).key) = true :=
  applyActionAt_unknown initV2 (by decide) "retry" (by decide) 0

/-! ## Blocked advancement -/

/-- C5: when the active stage's guard is false, advancing changes nothing but
the feedback log, to which exactly one hint-formatted entry for the active
stage is appended — in both engine variants. -/
theorem advance_blocked_hint (s : AppState)
    (hok : scoreOk (appStageOf s) (s.applied (appStageOf s).key) = false)
    (s2 : V2State)
    (hc : canAdvance (s2.appliedCounts (v2StageOf s2).key) = false) :
    goNext s = { s with log := s.log ++ [hintMsgApp (appStageOf s)] } ∧
    (goNext s).stageIdx = s.stageIdx ∧
    nextV2 s2 = { s2 with log := s2.log ++ [hintMsgV2 (v2StageOf s2)] } ∧
    (nextV2 s2).stageIdx = s2.stageIdx := by
  refine ⟨by simp [goNext, hok], ?_, by simp [nextV2, hc], ?_⟩ <;>
    simp [goNext, nextV2, hok, hc]

/-- Witness for C5 at the initial states, where nothing has been applied. -/
theorem advance_blocked_hint_witness :
    goNext initApp = { initApp with log := initApp.log ++ [hintMsgApp (appStageOf initApp)] } ∧
    (goNext initApp).stageIdx = initApp.stageIdx ∧
    nextV2 initV2 = { initV2 with log := initV2.log ++ [hintMsgV2 (v2StageOf initV2)] } ∧
    (nextV2 initV2).stageIdx = initV2.stageIdx :=
  advance_blocked_hint initApp (by decide) initV2 (by decide)

theorem getD_take {α} (l : List α) (n j : Nat) (d : α) (h : j < n) :
    (l.take n).getD j d = l.getD j d := by
  induction l generalizing n j with
  | nil => simp
  | cons a t ih =>
    cases n with
    | zero => simp at h
    | succ m =>
      cases j with
      | zero => simp
      | succ p =>
        simp only [List.take_succ_cons, List.getD_cons_succ]
        exact ih m p (Nat.lt_of_succ_lt_succ h)

theorem applyCatch_getD (lines : List String) (i t : Nat) (h : i < lines.length)
    (ht : t < 5) :
    (applyCatch lines i).getD (i + t) "" = (catchWrap (lines.getD i "")).getD t "" := by
  have h1 : (lines.take i).length = i := by simp [Nat.le_of_lt h]
  have h2 : (catchWrap (lines.getD i "")).length = 5 := by simp [catchWrap]
  have e1 : applyCatch lines i =
      lines.take i ++ (catchWrap (lines.getD i "") ++ lines.drop (i + 1)) := by
    simp [applyCatch]
  rw [e1, show i + t = (lines.take i).length + t by rw [h1], getD_append_plus,
    getD_append_left _ _ _ _ (by omega)]

/-- C1 (amended): applying the Catch transform to a valid line index yields
exactly original-count + 4 lines; the inserted block is `try {`, then the
escaped trimmed original text one indentation level deeper — the second
element of the block — then the editable catch header, the decision comment,
and the closing brace. -/
theorem applyCatch_spec (lines : List String) (i : Nat) (h : i < lines.length) :
    (applyCatch lines i).length = lines.length + 4 ∧
    (applyCatch lines i).getD i "" = jsIndent (lines.getD i "") ++ "try \x7b" ∧
    (applyCatch lines i).getD (i + 1) "" =
      jsIndent (lines.getD i "") ++ "    " ++
        String.mk (escJs (trimJs (lines.getD i "").data)) ∧
    (applyCatch lines i).getD (i + 2) "" =
      jsIndent (lines.getD i "") ++
        "\x7d catch (<span contenteditable=\"true\" class=\"ce\">Exception</span> e) \x7b" ∧
    (applyCatch lines i).getD (i + 3) "" =
      jsIndent (lines.getD i "") ++ "    " ++
        "// <span contenteditable=\"true\" class=\"ce\">decide: skip/retry/DLQ/translate</span>" ∧
    (applyCatch lines i).getD (i + 4) "" = jsIndent (lines.getD i "") ++ "\x7d" := by
  refine ⟨?_, ?_, ?_, ?_, ?_, ?_⟩
  · have h5 : (catchWrap (lines.getD i "")).length = 5 := by simp [catchWrap]
    rw [show applyCatch lines i =
        lines.take i ++ catchWrap (lines.getD i "") ++ lines.drop (i + 1) from rfl,
      List.length_append, List.length_append, h5, List.length_take, List.length_drop]
    omega
  · have := applyCatch_getD lines i 0 h (by omega)
    rw [Nat.add_zero] at this
    rw [this]; simp [catchWrap]
  · rw [applyCatch_getD lines i 1 h (by omega)]; simp [catchWrap]
  · rw [applyCatch_getD lines i 2 h (by omega)]; simp [catchWrap]
  · rw [applyCatch_getD lines i 3 h (by omega)]; simp [catchWrap]
  · rw [applyCatch_getD lines i 4 h (by omega)]; simp [catchWrap]

/-- Witness for C1 on the streaming-loop snippet, line index 1. -/
theorem applyCatch_spec_witness :
    (applyCatch snippet1 1).length = snippet1.length + 4 ∧
    (applyCatch snippet1 1).getD 2 "" =
      jsIndent (snippet1.getD 1 "") ++ "    " ++
        String.mk (escJs (trimJs (snippet1.getD 1 "").data)) :=
  ⟨(applyCatch_spec snippet1 1 (by decide)).1,
   (applyCatch_spec snippet1 1 (by decide)).2.2.1⟩

/-- Counterexample for C1 as stated: the trimmed original text is not the
third element of the inserted block (that slot holds the catch header), it is
the second. -/
theorem applyCatch_third_elem_cex :
    (applyCatch ["    processMessage(record); // may call networkCall()"] 0).getD 2 "" ≠
      String.mk (trimJs ("    processMessage(record); // may call networkCall()").data) ∧
    containsSub (trimJs ("    processMessage(record); // may call networkCall()").data)
      ((applyCatch ["    processMessage(record); // may call networkCall()"] 0).getD 2 "").data
      = false ∧
    (applyCatch ["    processMessage(record); // may call networkCall()"] 0).getD 1 "" =
      "    " ++ "    " ++
        String.mk (escJs (trimJs ("    processMessage(record); // may call networkCall()").data)) := by
  refine ⟨by decide, by decide, by decide⟩

/-- Number of lines matching the return-null pattern. -/
def countRNLines (lines : List String) : Nat :=
  (lines.filter (fun l => matchesRN l)).length

theorem spliceInsert_getD_before (l : List String) (n j : Nat) (x d : String)
    (hn : n ≤ l.length) (hj : j < n) :
    (spliceInsert l n x).getD j d = l.getD j d := by
  have h1 : (l.take n).length = n := by simp [hn]
  rw [show spliceInsert l n x = l.take n ++ ([x] ++ l.drop n) from by
      simp [spliceInsert],
    getD_append_left _ _ _ _ (by omega), getD_take _ _ _ _ hj]

/-- C2 (amended): on a valid target index, if the targeted line matches the
return-null pattern the Throw transform replaces that line in place — the
leftmost matched occurrence becomes the editable throw statement, the line
count is unchanged, and every other line is untouched; for any other targeted
line exactly one new throw line, indented one level deeper, is inserted
immediately after the target, so the line count grows by exactly one.
Exactly one line is replaced or exactly one is inserted, never both. -/
theorem applyThrow_spec (lines : List String) (i : Nat) (h : i < lines.length) :
    (∀ pre m post, findRN (lines.getD i "").data = some (pre, m, post) →
      applyThrow lines i = lines.set i (String.mk (pre ++ throwNullRepl ++ post)) ∧
      (applyThrow lines i).length = lines.length ∧
      (applyThrow lines i).getD i "" = String.mk (pre ++ throwNullRepl ++ post) ∧
      ∀ j, j ≠ i → (applyThrow lines i).getD j "" = lines.getD j "") ∧
    (findRN (lines.getD i "").data = none →
      applyThrow lines i = spliceInsert lines (i + 1) (throwInsLine (lines.getD i "")) ∧
      (applyThrow lines i).length = lines.length + 1 ∧
      (applyThrow lines i).getD (i + 1) "" = throwInsLine (lines.getD i "") ∧
      ∀ j, j ≤ i → (applyThrow lines i).getD j "" = lines.getD j "") ∧
    (((applyThrow lines i).length = lines.length ∧ matchesRN (lines.getD i "") = true) ∨
      ((applyThrow lines i).length = lines.length + 1 ∧
        matchesRN (lines.getD i "") = false)) := by
  refine ⟨?_, ?_, ?_⟩
  · intro pre m post hm
    have e1 : applyThrow lines i = lines.set i (String.mk (pre ++ throwNullRepl ++ post)) := by
      simp only [applyThrow, hm]
    refine ⟨e1, by simp [e1], ?_, ?_⟩
    · rw [e1, getD_set_self _ _ _ _ h]
    · intro j hj
      rw [e1, getD_set_ne _ _ _ _ _ hj]
  · intro hm
    have e1 : applyThrow lines i = spliceInsert lines (i + 1) (throwInsLine (lines.getD i "")) := by
      simp only [applyThrow, hm]
    refine ⟨e1, ?_, ?_, ?_⟩
    · rw [e1, spliceInsert_length _ _ _ (by omega)]
    · rw [e1, spliceInsert_getD_self _ _ _ _ (by omega)]
    · intro j hj
      rw [e1, spliceInsert_getD_before _ _ _ _ _ (by omega) (by omega)]
  · cases hm : findRN (lines.getD i "").data with
    | some v =>
      obtain ⟨pre, m, post⟩ := v
      have e1 : applyThrow lines i =
          lines.set i (String.mk (pre ++ throwNullRepl ++ post)) := by
        simp only [applyThrow, hm]
      exact Or.inl ⟨by simp [e1], by simp only [matchesRN, hm, Option.isSome_some, Option.isSome_none]⟩
    | none =>
      have e1 : applyThrow lines i =
          spliceInsert lines (i + 1) (throwInsLine (lines.getD i "")) := by
        simp only [applyThrow, hm]
      exact Or.inr ⟨by rw [e1, spliceInsert_length _ _ _ (by omega)],
        by simp only [matchesRN, hm, Option.isSome_some, Option.isSome_none]⟩

/-- Witness for C2 on the upstream-503 snippet: line 2 is the hidden-error
`return null;`, replaced in place. -/
theorem applyThrow_spec_witness :
    applyThrow snippet5 2 =
      snippet5.set 2
        (String.mk (([] : List Char) ++ throwNullRepl ++
          (" // currently hiding errors").data)) ∧
    (applyThrow snippet5 2).length = snippet5.length ∧
    (applyThrow snippet5 0).length = snippet5.length + 1 :=
  ⟨((applyThrow_spec snippet5 2 (by decide)).1 [] (("return null;").data)
      ((" // currently hiding errors").data) (by decide)).1,
   ((applyThrow_spec snippet5 2 (by decide)).1 [] (("return null;").data)
      ((" // currently hiding errors").data) (by decide)).2.1,
   ((applyThrow_spec snippet5 0 (by decide)).2.1 (by decide)).2.1⟩

/-- Counterexample for C2 as stated: a targeted line containing two
return-null occurrences still matches after the transform, so the number of
matching lines does not strictly decrease. -/
theorem applyThrow_count_cex :
    matchesRN ((["return null; return null;"] : List String).getD 0 "") = true ∧
    countRNLines ["return null; return null;"] = 1 ∧
    countRNLines (applyThrow ["return null; return null;"] 0) = 1 := by
  refine ⟨by decide, by decide, by decide⟩

/-- C3: on a valid target index, a targeted line matching the
return-expression pattern whose text does not already carry the `Optional.`
marker is rewritten in place to `return Optional.of(<expr>);` with unchanged
line count and all other lines untouched; any other targeted line (including
an optional-empty return, which is left untouched) gets exactly one new
sample `return Optional.of(...)` line inserted immediately after it. -/
theorem applyOptionalOf_spec (lines : List String) (i : Nat) (h : i < lines.length) :
    (∀ pre e rest, findRE (lines.getD i "").data = some (pre, e, rest) →
      hasOptionalDot (lines.getD i "") = false →
      applyOptionalOf lines i = lines.set i
        (String.mk (pre ++ ("return Optional.of(").data ++ e ++ (");").data ++ rest)) ∧
      (applyOptionalOf lines i).length = lines.length ∧
      (applyOptionalOf lines i).getD i "" =
        String.mk (pre ++ ("return Optional.of(").data ++ e ++ (");").data ++ rest) ∧
      ∀ j, j ≠ i → (applyOptionalOf lines i).getD j "" = lines.getD j "") ∧
    ((findRE (lines.getD i "").data = none ∨ hasOptionalDot (lines.getD i "") = true) →
      applyOptionalOf lines i = spliceInsert lines (i + 1) (optSample (lines.getD i "")) ∧
      (applyOptionalOf lines i).length = lines.length + 1 ∧
      (applyOptionalOf lines i).getD (i + 1) "" = optSample (lines.getD i "") ∧
      (applyOptionalOf lines i).getD i "" = lines.getD i "" ∧
      ∀ j, j ≤ i → (applyOptionalOf lines i).getD j "" = lines.getD j "") := by
  constructor
  · intro pre e rest hm hod
    have e1 : applyOptionalOf lines i = lines.set i
        (String.mk (pre ++ ("return Optional.of(").data ++ e ++ (");").data ++ rest)) := by
      simp only [applyOptionalOf, hm, hod, Bool.false_eq_true, if_false]
    refine ⟨e1, by simp [e1], ?_, ?_⟩
    · rw [e1, getD_set_self _ _ _ _ h]
    · intro j hj
      rw [e1, getD_set_ne _ _ _ _ _ hj]
  · intro hm
    have e1 : applyOptionalOf lines i =
        spliceInsert lines (i + 1) (optSample (lines.getD i "")) := by
      rcases hm with hm | hod
      · simp only [applyOptionalOf, hm]
      · cases hf : findRE (lines.getD i "").data with
        | none => simp only [applyOptionalOf, hf]
        | some v =>
          obtain ⟨pre, e, rest⟩ := v
          simp only [applyOptionalOf, hf, hod, if_true]
    refine ⟨e1, ?_, ?_, ?_, ?_⟩
    · rw [e1, spliceInsert_length _ _ _ (by omega)]
    · rw [e1, spliceInsert_getD_self _ _ _ _ (by omega)]
    · rw [e1, spliceInsert_getD_before _ _ _ _ _ (by omega) (by omega)]
    · intro j hj
      rw [e1, spliceInsert_getD_before _ _ _ _ _ (by omega) (by omega)]

/-- Witness for C3: the upstream-503 snippet's line 1 is rewritten in place,
and the optional-empty line of the repository snippet only triggers an
insertion. -/
theorem applyOptionalOf_spec_witness :
    applyOptionalOf snippet5 1 = snippet5.set 1
      (String.mk (("if (r.status() == 200) ").data ++ ("return Optional.of(").data ++
        ("r.body()").data ++ (");").data ++ ([] : List Char))) ∧
    (applyOptionalOf snippet5 1).length = snippet5.length ∧
    applyOptionalOf snippet2 2 = spliceInsert snippet2 3 (optSample (snippet2.getD 2 "")) ∧
    (applyOptionalOf snippet2 2).length = snippet2.length + 1 :=
  ⟨((applyOptionalOf_spec snippet5 1 (by decide)).1 (("if (r.status() == 200) ").data)
      (("r.body()").data) [] (by decide) (by decide)).1,
   ((applyOptionalOf_spec snippet5 1 (by decide)).1 (("if (r.status() == 200) ").data)
      (("r.body()").data) [] (by decide) (by decide)).2.1,
   ((applyOptionalOf_spec snippet2 2 (by decide)).2 (Or.inr (by decide))).1,
   ((applyOptionalOf_spec snippet2 2 (by decide)).2 (Or.inr (by decide))).2.1⟩

/-! ## Strict scoring: the superset characterisation -/

theorem jsStartsWithL_self_append (p rest : List Char) :
    jsStartsWithL p (p ++ rest) = true := by
  induction p with
  | nil => rfl
  | cons a t ih => simp [jsStartsWithL, ih]

theorem throwColon_ne (c k : String)
    (hk : k = "throw" ∨ k = "catch" ∨ k = "opt") : ("throw:" ++ c) ≠ k := by
  intro hc
  have hd : ("throw:").data ++ c.data = k.data := by rw [← String.data_append, hc]
  rw [show ("throw:").data = ['t', 'h', 'r', 'o', 'w', ':'] from rfl] at hd
  rcases hk with rfl | rfl | rfl
  · rw [show ("throw").data = ['t', 'h', 'r', 'o', 'w'] from rfl] at hd
    simp at hd
  · rw [show ("catch").data = ['c', 'a', 't', 'c', 'h'] from rfl] at hd
    simp at hd
  · rw [show ("opt").data = ['o', 'p', 't'] from rfl] at hd
    simp at hd

theorem throwColon_startsWith (c : String) :
    jsStartsWith ("throw:" ++ c) ("throw:") = true := by
  unfold jsStartsWith
  rw [String.data_append]
  exact jsStartsWithL_self_append _ _

theorem throwColon_not_startsWith (c p : String) (hk : p = "catch:" ∨ p = "opt:") :
    jsStartsWith ("throw:" ++ c) p = false := by
  unfold jsStartsWith
  rw [String.data_append,
    show ("throw:").data = ['t', 'h', 'r', 'o', 'w', ':'] from rfl]
  rcases hk with rfl | rfl
  · rw [show ("catch:").data = ['c', 'a', 't', 'c', 'h', ':'] from rfl]
    simp [jsStartsWithL]
  · rw [show ("opt:").data = ['o', 'p', 't', ':'] from rfl]
    simp [jsStartsWithL]

/-- The record entry written by `chosen a c` satisfies `scoreStage`'s `has k`
test exactly when the applied kind `a` is `k`: the custom exception name is
ignored. -/
theorem chosen_hit (a : ActionId) (c : String) (k : ActionId) :
    ((decide (chosen a c = ActionId.str k)) ||
      jsStartsWith (chosen a c) (ActionId.str k ++ ":")) = true ↔ a = k := by
  by_cases hc : c = ""
  · subst hc
    cases a <;> cases k <;> decide
  · cases a with
    | athrow =>
      have hch : chosen ActionId.athrow c = "throw:" ++ c := by simp [chosen, hc]
      cases k with
      | athrow =>
        rw [show ActionId.str ActionId.athrow = "throw" from rfl, hch,
          show ("throw" ++ ":") = "throw:" from rfl]
        simp [throwColon_startsWith]
      | acatch =>
        rw [show ActionId.str ActionId.acatch = "catch" from rfl, hch,
          show (("catch" : String) ++ ":") = "catch:" from rfl]
        have h1 := throwColon_ne c "catch" (Or.inr (Or.inl rfl))
        have h2 := throwColon_not_startsWith c "catch:" (Or.inl rfl)
        simp [h1, h2]
      | aopt =>
        rw [show ActionId.str ActionId.aopt = "opt" from rfl, hch,
          show (("opt" : String) ++ ":") = "opt:" from rfl]
        have h1 := throwColon_ne c "opt" (Or.inr (Or.inr rfl))
        have h2 := throwColon_not_startsWith c "opt:" (Or.inr rfl)
        simp [h1, h2]
    | acatch =>
      have hch : chosen ActionId.acatch c = "catch" := by simp [chosen, ActionId.str]
      rw [hch]
      cases k <;> decide
    | aopt =>
      have hch : chosen ActionId.aopt c = "opt" := by simp [chosen, ActionId.str]
      rw [hch]
      cases k <;> decide

theorem str_eq_iff (a b : ActionId) : ActionId.str a = ActionId.str b ↔ a = b := by
  cases a <;> cases b <;> decide

/-- `has k` over a record built by `chosen` holds exactly when kind `k` was
applied at least once, whatever custom names were attached. -/
theorem hasEntry_chosen_iff (k : ActionId) (apps : List (ActionId × String)) :
    hasEntry (apps.map (fun p => chosen p.1 p.2)) (ActionId.str k) = true ↔
      ∃ p ∈ apps, p.1 = k := by
  induction apps with
  | nil => simp [hasEntry]
  | cons hd tl ih =>
    simp only [List.map_cons, hasEntry, List.any_cons] at *
    rw [Bool.or_eq_true, chosen_hit, ih]
    simp [List.mem_cons, or_and_right, exists_or, exists_eq_left]

theorem scoreOk_validKeys_iff (keys : List String)
    (hk : ∀ k ∈ keys, k = "throw" ∨ k = "catch" ∨ k = "opt")
    (apps : List (ActionId × String)) :
    (keys.all (fun k => hasEntry (apps.map (fun p => chosen p.1 p.2)) k)) = true ↔
      ∀ k ∈ keys, ∃ p ∈ apps, ActionId.str p.1 = k := by
  induction keys with
  | nil => simp
  | cons k0 tl ih =>
    have hk0 := hk k0 (List.mem_cons_self _ _)
    have htl : ∀ k ∈ tl, k = "throw" ∨ k = "catch" ∨ k = "opt" :=
      fun k hm => hk k (List.mem_cons_of_mem _ hm)
    simp only [List.all_cons, Bool.and_eq_true, ih htl, List.forall_mem_cons]
    have hhead : hasEntry (apps.map (fun p => chosen p.1 p.2)) k0 = true ↔
        ∃ p ∈ apps, ActionId.str p.1 = k0 := by
      rcases hk0 with rfl | rfl | rfl
      · rw [show ("throw" : String) = ActionId.str ActionId.athrow from rfl,
          hasEntry_chosen_iff]
        simp [str_eq_iff]
      · rw [show ("catch" : String) = ActionId.str ActionId.acatch from rfl,
          hasEntry_chosen_iff]
        simp [str_eq_iff]
      · rw [show ("opt" : String) = ActionId.str ActionId.aopt from rfl,
          hasEntry_chosen_iff]
        simp [str_eq_iff]
    rw [hhead]

/-- C4: under the strict policy, for every registry stage and every sequence
of applied actions (an action kind plus the custom exception name current at
application time), `scoreStage(...).ok` — the `canAdvance` guard — is true
exactly when every expected action kind of the stage has been applied at
least once; attached custom names are ignored and excess or unlisted kinds
never block advancement. -/
theorem scoreOk_iff (st : AppStage) (hs : st ∈ STAGES_app)
    (apps : List (ActionId × String)) :
    scoreOk st (apps.map (fun p => chosen p.1 p.2)) = true ↔
      ∀ k ∈ st.expectedKeys, ∃ p ∈ apps, ActionId.str p.1 = k := by
  have hk : ∀ k ∈ st.expectedKeys, k = "throw" ∨ k = "catch" ∨ k = "opt" := by
    fin_cases hs <;> decide
  exact scoreOk_validKeys_iff st.expectedKeys hk apps

/-- Witness for C4 on stage 1: a custom-named throw plus a catch satisfies
the expected set `{catch, throw}`. -/
theorem scoreOk_iff_witness :
    scoreOk (⟨"kafka-loop", title1, goal1, snippet1, ["catch", "throw"], hint1⟩ : AppStage)
        (([(ActionId.athrow, "MyDomainException"), (ActionId.acatch, "")] :
          List (ActionId × String)).map (fun p => chosen p.1 p.2)) = true ↔
      ∀ k ∈ (⟨"kafka-loop", title1, goal1, snippet1, ["catch", "throw"], hint1⟩ :
          AppStage).expectedKeys,
        ∃ p ∈ ([(ActionId.athrow, "MyDomainException"), (ActionId.acatch, "")] :
          List (ActionId × String)), ActionId.str p.1 = k :=
  scoreOk_iff _ (by decide) _

/-! ## Progression state machine -/

theorem astep_idx_lt {s : AppState} (h : s.stageIdx < STAGES_app.length) (e : AEvent) :
    (astep s e).stageIdx < STAGES_app.length := by
  cases e with
  | act a => exact h
  | nxt =>
    simp only [astep, goNext]
    split
    · split
      · next hlt => simpa using (by omega : s.stageIdx + 1 < STAGES_app.length)
      · exact h
    · exact h
  | rst => exact (by decide : (0 : Nat) < STAGES_app.length)
  | hintB => exact h
  | setName c => exact h

theorem AReach_idx_lt {s : AppState} (h : AReach s) :
    s.stageIdx < STAGES_app.length := by
  induction h with
  | init => decide
  | step e _ ih => exact astep_idx_lt ih e

theorem vstep_idx_lt {s : V2State} (h : s.stageIdx < STAGES_v2.length) (e : VEvent) :
    (vstep s e).stageIdx < STAGES_v2.length := by
  cases e with
  | act a i => exact h
  | nxt =>
    simp only [vstep, nextV2]
    split
    · split
      · next hlt => simpa using (by omega : s.stageIdx + 1 < STAGES_v2.length)
      · exact h
    · exact h
  | rstStage => exact h
  | rstAll => exact (by decide : (0 : Nat) < STAGES_v2.length)

theorem VReach_idx_lt {s : V2State} (h : VReach s) :
    s.stageIdx < STAGES_v2.length := by
  induction h with
  | init => decide
  | step e _ ih => exact vstep_idx_lt ih e

/-- C6: in every reachable state of either variant the current stage index is
a valid registry index; every event either leaves the index unchanged,
advances it by exactly one, or resets it to 0; a successful advance on a
non-final stage increments the index by exactly one; a successful advance on
the final stage leaves it unchanged and marks completion (the reveal flag in
the strict variant, the completion log entry in the lenient one); reset sets
it to 0. -/
theorem progression_transitions (s : AppState) (h : AReach s)
    (s2 : V2State) (h2 : VReach s2) :
    s.stageIdx < STAGES_app.length ∧
    s2.stageIdx < STAGES_v2.length ∧
    (∀ e, (astep s e).stageIdx = s.stageIdx ∨ (astep s e).stageIdx = s.stageIdx + 1 ∨
      (astep s e).stageIdx = 0) ∧
    (∀ e, (vstep s2 e).stageIdx = s2.stageIdx ∨ (vstep s2 e).stageIdx = s2.stageIdx + 1 ∨
      (vstep s2 e).stageIdx = 0) ∧
    (scoreOk (appStageOf s) (s.applied (appStageOf s).key) = true →
      s.stageIdx < STAGES_app.length - 1 → (goNext s).stageIdx = s.stageIdx + 1) ∧
    (scoreOk (appStageOf s) (s.applied (appStageOf s).key) = true →
      ¬s.stageIdx < STAGES_app.length - 1 →
      (goNext s).stageIdx = s.stageIdx ∧ (goNext s).showBest = true) ∧
    (scoreOk (appStageOf s) (s.applied (appStageOf s).key) = false →
      (goNext s).stageIdx = s.stageIdx) ∧
    (resetA s).stageIdx = 0 ∧
    (canAdvance (s2.appliedCounts (v2StageOf s2).key) = true →
      s2.stageIdx < STAGES_v2.length - 1 → (nextV2 s2).stageIdx = s2.stageIdx + 1) ∧
    (canAdvance (s2.appliedCounts (v2StageOf s2).key) = true →
      ¬s2.stageIdx < STAGES_v2.length - 1 →
      nextV2 s2 = { s2 with log := s2.log ++ [doneMsgV2] }) ∧
    (resetAllV2 s2).stageIdx = 0 := by
  refine ⟨AReach_idx_lt h, VReach_idx_lt h2, ?_, ?_, ?_, ?_, ?_, rfl, ?_, ?_, rfl⟩
  · intro e
    cases e with
    | act a => exact Or.inl rfl
    | nxt =>
      simp only [astep, goNext]
      split
      · split
        · exact Or.inr (Or.inl rfl)
        · exact Or.inl rfl
      · exact Or.inl rfl
    | rst => exact Or.inr (Or.inr rfl)
    | hintB => exact Or.inl rfl
    | setName c => exact Or.inl rfl
  · intro e
    cases e with
    | act a i => exact Or.inl rfl
    | nxt =>
      simp only [vstep, nextV2]
      split
      · split
        · exact Or.inr (Or.inl rfl)
        · exact Or.inl rfl
      · exact Or.inl rfl
    | rstStage => exact Or.inl rfl
    | rstAll => exact Or.inr (Or.inr rfl)
  · intro hok hlt
    simp [goNext, hok, hlt]
  · intro hok hlt
    simp [goNext, hok, hlt]
  · intro hok
    simp [goNext, hok]
  · intro hok hlt
    simp [nextV2, hok, hlt]
  · intro hok hlt
    simp [nextV2, hok, hlt]

/-- Witness for C6 at the initial states. -/
theorem progression_transitions_witness :
    initApp.stageIdx < STAGES_app.length ∧ initV2.stageIdx < STAGES_v2.length ∧
    (resetA initApp).stageIdx = 0 ∧ (resetAllV2 initV2).stageIdx = 0 := by
  obtain ⟨h1, h2, -, -, -, -, -, h3, -, -, h4⟩ :=
    progression_transitions initApp AReach.init initV2 VReach.init
  exact ⟨h1, h2, h3, h4⟩
